import Mathlib

/-
  Shallow embedding of the FIFO lot-accounting core of sklarsa/crypto-taxes,
  file accounting/accounting.go.  decimal.Decimal values are modelled as
  exact rationals; time.Time values are modelled as natural numbers ordered
  as the timestamps are.
-/

namespace CryptoTaxes

/-- A Lot is an amount of crypto purchased in a single event
    (struct Lot in accounting.go). -/
structure Lot where
  purchaseDate : ℕ
  quantity : ℚ
  spot : ℚ
deriving DecidableEq

/-- Lot.TotalCost in accounting.go: Quantity.Mul(Spot). -/
def Lot.TotalCost (l : Lot) : ℚ := l.quantity * l.spot

/-- A Sale is a taxable sale event (struct Sale in accounting.go),
    fields in source order. -/
structure Sale where
  asset : String
  saleDate : ℕ
  purchaseDate : ℕ
  quantity : ℚ
  avgCost : ℚ
  fifoCost : ℚ
  proceeds : ℚ
deriving DecidableEq

/-- LotHistory is the per-asset queue of lots (struct LotHistory). -/
structure LotHistory where
  asset : String
  lots : List Lot
deriving DecidableEq

/-- The error outcomes of Buy and Sell.  NegativeQuantityErr and
    NegativeSpotErr are the structs of accounting.go; outOfOrder is the
    chronological-order error built with fmt.Errorf in Buy;
    insufficientLots is the fmt.Errorf error of Sell reporting the
    remaining amount; the spec names these InvalidQuantity, InvalidPrice,
    OutOfOrder and InsufficientLots. -/
inductive AccErr where
  | negativeQuantity
  | negativeSpot
  | outOfOrder
  | insufficientLots (remaining : ℚ)
deriving DecidableEq

/-- LotHistory.Buy: validates quantity, then spot, then chronological
    order against the tail lot, and appends on success.  The Go method
    mutates the receiver and returns an error; here it returns the new
    state together with an optional error (state unchanged on error,
    exactly as the source returns before the append). -/
def LotHistory.Buy (h : LotHistory) (l : Lot) : LotHistory × Option AccErr :=
  if l.quantity ≤ 0 then (h, some AccErr.negativeQuantity)
  else if l.spot ≤ 0 then (h, some AccErr.negativeSpot)
  else
    match h.lots.getLast? with
    | some t =>
      if l.purchaseDate < t.purchaseDate then (h, some AccErr.outOfOrder)
      else ({ h with lots := h.lots ++ [l] }, none)
    | none => ({ h with lots := h.lots ++ [l] }, none)

/-- LotHistory.Quantity: sum of lot quantities. -/
def LotHistory.Quantity (h : LotHistory) : ℚ :=
  (h.lots.map fun l => l.quantity).sum

/-- LotHistory.TotalCost: sum of Spot.Mul(Quantity) over the lots. -/
def LotHistory.TotalCost (h : LotHistory) : ℚ :=
  (h.lots.map fun l => l.spot * l.quantity).sum

/-- LotHistory.AvgCost: total cost divided by total quantity, zero when the
    denominator is zero. -/
def LotHistory.AvgCost (h : LotHistory) : ℚ :=
  let num := (h.lots.map fun l => l.spot * l.quantity).sum
  let denom := (h.lots.map fun l => l.quantity).sum
  if denom = 0 then 0 else num / denom

/-- The do-while loop of LotHistory.Sell.  Arguments quantity, spot, date
    are the Sell arguments; the loop state is the lot list (the Go code
    peeks and pops the head) and the remaining counter.  Returns the sales
    emitted to the channel in order, the final lot list, and the error if
    the loop returned one.  One iteration: peek the head (error if none),
    compute AvgCost of the current whole queue, then either split the head
    lot (remaining < head quantity: case -1 of the switch) or pop it
    (default case), build the Sale exactly as the source does, and continue
    while remaining is greater than zero. -/
def sellLoop (asset : String) (quantity spot : ℚ) (date : ℕ) :
    List Lot → ℚ → List Sale × List Lot × Option AccErr
  | [], remaining => ([], [], some (AccErr.insufficientLots remaining))
  | lot :: rest, remaining =>
    let avgCost0 := LotHistory.AvgCost ⟨asset, lot :: rest⟩
    if remaining < lot.quantity then
      ([{ asset := asset
          saleDate := date
          purchaseDate := lot.purchaseDate
          quantity := quantity - 0
          avgCost := avgCost0 * remaining
          fifoCost := remaining * lot.spot
          proceeds := quantity * spot }],
       { lot with quantity := lot.quantity - remaining } :: rest,
       none)
    else
      let remaining2 := remaining - lot.TotalCost
      let sale : Sale :=
        { asset := asset
          saleDate := date
          purchaseDate := lot.purchaseDate
          quantity := quantity - remaining2
          avgCost := lot.quantity * avgCost0
          fifoCost := lot.TotalCost
          proceeds := quantity * spot }
      if 0 < remaining2 then
        let res := sellLoop asset quantity spot date rest remaining2
        (sale :: res.1, res.2.1, res.2.2)
      else ([sale], rest, none)

/-- LotHistory.Sell: validates quantity and spot, then runs the
    consumption loop starting with remaining = quantity.  Returns the
    emitted sales, the final history, and the optional error. -/
def LotHistory.Sell (h : LotHistory) (quantity spot : ℚ) (date : ℕ) :
    List Sale × LotHistory × Option AccErr :=
  if quantity ≤ 0 then ([], h, some AccErr.negativeQuantity)
  else if spot ≤ 0 then ([], h, some AccErr.negativeSpot)
  else
    let res := sellLoop h.asset quantity spot date h.lots quantity
    (res.1, { h with lots := res.2.1 }, res.2.2)

/-- An operation on a single LotHistory: the two mutating methods. -/
inductive Op where
  | buy (l : Lot)
  | sell (q s : ℚ) (d : ℕ)

/-- Apply one operation to a history, keeping the resulting state whether
    or not the operation reported an error (the Go methods mutate the
    receiver in place). -/
def applyOp (h : LotHistory) : Op → LotHistory
  | Op.buy l => (h.Buy l).1
  | Op.sell q s d => (h.Sell q s d).2.1

/-- Replay a sequence of operations from the empty history of an asset. -/
def replay (asset : String) (ops : List Op) : LotHistory :=
  ops.foldl applyOp ⟨asset, []⟩

/-- Queue well-formedness: every held lot has positive quantity and the
    purchase dates are non-decreasing along the queue. -/
def WF (h : LotHistory) : Prop :=
  (∀ l ∈ h.lots, 0 < l.quantity) ∧
  List.Chain' (fun a b => a.purchaseDate ≤ b.purchaseDate) h.lots

/-- The two-lot history of the spec examples: buy 100 at 1 dollar, then
    100 at 2 dollars. -/
def exampleHistory : LotHistory := ⟨"BTC", [⟨0, 100, 1⟩, ⟨1, 100, 2⟩]⟩

/-- A one-lot history whose lot has a fractional unit price: 10 units
    bought at half a dollar each. -/
def halfDollarHistory : LotHistory := ⟨"BTC", [⟨0, 10, 1/2⟩]⟩

/-- A one-lot history: 10 units bought at 5 dollars each. -/
def fiveDollarHistory : LotHistory := ⟨"BTC", [⟨0, 10, 5⟩]⟩

/-- A two-lot history with uneven prices: 10 units at 10 dollars, then 10
    units at 1 dollar. -/
def unevenHistory : LotHistory := ⟨"BTC", [⟨0, 10, 10⟩, ⟨1, 10, 1⟩]⟩

/-- C1: the claimed conservation property fails on the code because the
    loop decrements the remaining counter by the consumed lot dollar cost
    rather than by its quantity.  Selling exactly the 10 units bought (one
    lot of 10 at half a dollar) does not consume exactly the oldest lots
    summing to the sell quantity: it empties the queue and then fails with
    the insufficient-lots error reporting 5 remaining. -/
theorem Sell_exactQuantity_insufficient :
    halfDollarHistory.Quantity = 10 ∧
    (halfDollarHistory.Sell 10 1 1).2.2 = some (AccErr.insufficientLots 5) ∧
    (halfDollarHistory.Sell 10 1 1).2.1.lots = [] := by
  norm_num [halfDollarHistory, LotHistory.Quantity, LotHistory.Sell, sellLoop,
    LotHistory.AvgCost, Lot.TotalCost]

/-- C2: selling against an empty queue does fail with the insufficient-lots
    error, but selling strictly more than the held quantity does not always
    fail: with 10 units held at 5 dollars, selling 20 returns no error and
    emits a single Sale, because the remaining counter is decremented by
    the lot dollar cost 50 and immediately drops below zero. -/
theorem Sell_oversell_no_error :
    ((⟨"BTC", []⟩ : LotHistory).Sell 20 1 1).2.2 = some (AccErr.insufficientLots 20) ∧
    fiveDollarHistory.Quantity = 10 ∧
    (fiveDollarHistory.Sell 20 1 1).2.2 = none ∧
    (fiveDollarHistory.Sell 20 1 1).1.length = 1 := by
  norm_num [fiveDollarHistory, LotHistory.Quantity, LotHistory.Sell, sellLoop,
    LotHistory.AvgCost, Lot.TotalCost]

/-- C6: selling exactly the full remaining quantity does not always empty
    the queue.  With lots of 10 units at 10 dollars and 10 units at 1
    dollar (total quantity 20), selling 20 returns no error but leaves the
    second lot in the queue: the remaining counter 20 drops by the first
    lot dollar cost 100 and the loop stops after one iteration. -/
theorem Sell_totalQuantity_remains :
    unevenHistory.Quantity = 20 ∧
    (unevenHistory.Sell 20 1 2).2.2 = none ∧
    ((unevenHistory.Sell 20 1 2).2.1).Quantity = 10 := by
  norm_num [unevenHistory, LotHistory.Quantity, LotHistory.Sell, sellLoop,
    LotHistory.AvgCost, Lot.TotalCost]

/-- C8: AvgCost on an empty queue returns zero; immediately after a single
    successful Buy of n units at price p into an empty queue it equals p;
    and after buying 100 at 1 dollar then 100 at 2 dollars, TotalCost is
    300 and AvgCost is 1.5. -/
theorem AvgCost_TotalCost_spec :
    (∀ a : String, (LotHistory.mk a []).AvgCost = 0) ∧
    (∀ (a : String) (d : ℕ) (n p : ℚ), 0 < n → 0 < p →
      (((LotHistory.mk a []).Buy ⟨d, n, p⟩).1).AvgCost = p) ∧
    exampleHistory = (((LotHistory.mk "BTC" []).Buy ⟨0, 100, 1⟩).1.Buy ⟨1, 100, 2⟩).1 ∧
    exampleHistory.TotalCost = 300 ∧ exampleHistory.AvgCost = 3/2 := by
  refine ⟨?_, ?_, ?_, ?_, ?_⟩
  · intro a
    simp [LotHistory.AvgCost]
  · intro a d n p hn hp
    simp only [LotHistory.Buy, not_le.mpr hn, if_false, not_le.mpr hp, List.getLast?_nil]
    simp [LotHistory.AvgCost, hn.ne.symm, mul_div_assoc, div_self]
  · norm_num [exampleHistory, LotHistory.Buy]
  · norm_num [exampleHistory, LotHistory.TotalCost]
  · norm_num [exampleHistory, LotHistory.AvgCost]

/-- C8 witness: the second conjunct applied at a concrete buy of 7 units
    at price 5. -/
theorem AvgCost_TotalCost_spec_witness :
    (0:ℚ) < 7 ∧ (0:ℚ) < 5 ∧
    (((LotHistory.mk "ETH" []).Buy ⟨2, 7, 5⟩).1).AvgCost = 5 :=
  ⟨by norm_num, by norm_num,
    AvgCost_TotalCost_spec.2.1 "ETH" 2 7 5 (by norm_num) (by norm_num)⟩

/-- C3: one loop iteration with remaining at least the head lot quantity
    (the default case of the switch): the head lot is removed, the emitted
    Sale for this increment carries fifoCost equal to the lot quantity
    times its unit price, and the loop continues (or stops) with remaining
    decremented by the lot total cost in dollars, not by its quantity. -/
theorem Sell_fullConsume_step (a : String) (q s : ℚ) (d : ℕ) (lot : Lot)
    (rest : List Lot) (remaining : ℚ) (hge : lot.quantity ≤ remaining) :
    (sellLoop a q s d (lot :: rest) remaining).1.head? = some
      { asset := a, saleDate := d, purchaseDate := lot.purchaseDate,
        quantity := q - (remaining - lot.quantity * lot.spot),
        avgCost := lot.quantity * LotHistory.AvgCost ⟨a, lot :: rest⟩,
        fifoCost := lot.quantity * lot.spot,
        proceeds := q * s } ∧
    (sellLoop a q s d (lot :: rest) remaining).2 =
      if 0 < remaining - lot.quantity * lot.spot
      then (sellLoop a q s d rest (remaining - lot.quantity * lot.spot)).2
      else (rest, none) := by
  have hnl : ¬ remaining < lot.quantity := not_lt.mpr hge
  simp only [sellLoop, Lot.TotalCost, hnl, if_false]
  split <;> simp

/-- C3 witness: one lot of 10 units at 5 dollars, selling 10: the step
    pops the lot and the loop continues with remaining 10 - 50. -/
theorem Sell_fullConsume_step_witness :
    (10:ℚ) ≤ 10 ∧
    ((sellLoop "BTC" 10 1 3 [Lot.mk 0 10 5] 10).1.head? = some
      { asset := "BTC", saleDate := 3, purchaseDate := 0,
        quantity := 10 - (10 - 10 * 5),
        avgCost := 10 * LotHistory.AvgCost ⟨"BTC", [Lot.mk 0 10 5]⟩,
        fifoCost := 10 * 5,
        proceeds := 10 * 1 } ∧
     (sellLoop "BTC" 10 1 3 [Lot.mk 0 10 5] 10).2 =
      if 0 < (10:ℚ) - 10 * 5
      then (sellLoop "BTC" 10 1 3 [] (10 - 10 * 5)).2
      else ([], none)) :=
  ⟨le_refl 10, Sell_fullConsume_step "BTC" 10 1 3 (Lot.mk 0 10 5) [] 10 (le_refl 10)⟩

/-- C4 counterexample: on buys of 100 at 1 dollar and 100 at 2 dollars,
    selling 200 at 3 dollars emits Sales whose quantity fields are 100 and
    300, neither equal to the original sell quantity 200. -/
theorem Sale_quantity_counterexample :
    ((exampleHistory.Sell 200 3 2).1.map Sale.quantity) = [100, 300] ∧
    (100:ℚ) ≠ 200 ∧ (300:ℚ) ≠ 200 := by
  norm_num [exampleHistory, LotHistory.Sell, sellLoop, LotHistory.AvgCost, Lot.TotalCost]

/-- C4 amended: the quantity field of the Sale emitted at a loop step is
    the original sell quantity minus the remaining counter after the step:
    the full sell quantity on a split of the head lot, and the sell
    quantity minus (remaining minus the lot dollar cost) when the head lot
    is fully consumed. -/
theorem Sale_quantity_step (a : String) (q s : ℚ) (d : ℕ) (lot : Lot)
    (rest : List Lot) (remaining : ℚ) :
    ((sellLoop a q s d (lot :: rest) remaining).1.head?.map Sale.quantity) =
      some (if remaining < lot.quantity then q
            else q - (remaining - lot.quantity * lot.spot)) := by
  simp only [sellLoop, Lot.TotalCost]
  split
  · simp
  · split <;> simp

/-- Every Sale the loop emits carries proceeds equal to the full sell
    quantity times the sell unit price. -/
theorem sellLoop_proceeds (a : String) (q s : ℚ) (d : ℕ) :
    ∀ (lots : List Lot) (remaining : ℚ) (sale : Sale),
      sale ∈ (sellLoop a q s d lots remaining).1 → sale.proceeds = q * s := by
  intro lots
  induction lots with
  | nil =>
    intro remaining sale hs
    simp [sellLoop] at hs
  | cons lot rest ih =>
    intro remaining sale hs
    simp only [sellLoop] at hs
    split at hs
    · rw [List.mem_singleton] at hs
      subst hs
      rfl
    · split at hs
      · rcases List.mem_cons.mp hs with h1 | h2
        · subst h1
          rfl
        · exact ih _ sale h2
      · rw [List.mem_singleton] at hs
        subst hs
        rfl

/-- C5 amended: the proceeds field of every Sale emitted by Sell equals the
    full sell quantity times the sell unit price, on every record alike,
    not the consumed lot share of the sell value. -/
theorem Sale_proceeds_eq_full (h : LotHistory) (q s : ℚ) (d : ℕ) (sale : Sale)
    (hmem : sale ∈ (h.Sell q s d).1) : sale.proceeds = q * s := by
  simp only [LotHistory.Sell] at hmem
  split at hmem
  · simp at hmem
  · split at hmem
    · simp at hmem
    · exact sellLoop_proceeds h.asset q s d h.lots q sale hmem

/-- C5 witness: the first Sale of the spec example sell of 200 at 3
    dollars has proceeds 600 = 200 * 3. -/
theorem Sale_proceeds_eq_full_witness :
    (⟨"BTC", 2, 0, 100, 150, 100, 600⟩ : Sale) ∈ (exampleHistory.Sell 200 3 2).1 ∧
    (⟨"BTC", 2, 0, 100, 150, 100, 600⟩ : Sale).proceeds = 200 * 3 :=
  ⟨by norm_num [exampleHistory, LotHistory.Sell, sellLoop, LotHistory.AvgCost, Lot.TotalCost],
    Sale_proceeds_eq_full exampleHistory 200 3 2 ⟨"BTC", 2, 0, 100, 150, 100, 600⟩
      (by norm_num [exampleHistory, LotHistory.Sell, sellLoop, LotHistory.AvgCost, Lot.TotalCost])⟩

/-- C5 counterexample: in the spec example both emitted Sales carry
    proceeds 600, while the first consumed lot share of the sell value is
    its 100 consumed units (fifoCost 100 at unit price 1) times the sell
    price 3, that is 300, not 600. -/
theorem Sale_proceeds_counterexample :
    ((exampleHistory.Sell 200 3 2).1.map Sale.proceeds) = [600, 600] ∧
    ((exampleHistory.Sell 200 3 2).1.map Sale.fifoCost) = [100, 200] ∧
    (600:ℚ) ≠ 100 * 3 := by
  norm_num [exampleHistory, LotHistory.Sell, sellLoop, LotHistory.AvgCost, Lot.TotalCost]

/-- C7: Buy fails with the quantity error when the lot quantity is not
    positive, with the spot error when the quantity is positive but the
    unit price is not, and with the out-of-order error when both are
    positive and the purchase date precedes the last appended lot date; on
    any failure the queue is unchanged, and on success the lot becomes the
    new tail. -/
theorem Buy_validates (h : LotHistory) (l : Lot) :
    (l.quantity ≤ 0 → h.Buy l = (h, some AccErr.negativeQuantity)) ∧
    (0 < l.quantity → l.spot ≤ 0 → h.Buy l = (h, some AccErr.negativeSpot)) ∧
    (0 < l.quantity → 0 < l.spot →
      ∀ t, h.lots.getLast? = some t → l.purchaseDate < t.purchaseDate →
        h.Buy l = (h, some AccErr.outOfOrder)) ∧
    ((h.Buy l).2 ≠ none → (h.Buy l).1 = h) ∧
    ((h.Buy l).2 = none → (h.Buy l).1.lots = h.lots ++ [l]) := by
  have hcases : ((h.Buy l).2 = none ∧ (h.Buy l).1.lots = h.lots ++ [l]) ∨
      ((h.Buy l).2 ≠ none ∧ (h.Buy l).1 = h) := by
    unfold LotHistory.Buy
    split
    · exact Or.inr ⟨by simp, rfl⟩
    · split
      · exact Or.inr ⟨by simp, rfl⟩
      · split
        · split
          · exact Or.inr ⟨by simp, rfl⟩
          · exact Or.inl ⟨rfl, rfl⟩
        · exact Or.inl ⟨rfl, rfl⟩
  refine ⟨?_, ?_, ?_, fun hne => ?_, fun he => ?_⟩
  · intro hq
    simp [LotHistory.Buy, hq]
  · intro hq hs
    simp [LotHistory.Buy, not_le.mpr hq, hs]
  · intro hq hs t ht hlt
    simp [LotHistory.Buy, not_le.mpr hq, not_le.mpr hs, ht, hlt]
  · rcases hcases with ⟨he2, _⟩ | ⟨_, h1⟩
    · exact absurd he2 hne
    · exact h1
  · rcases hcases with ⟨_, h1⟩ | ⟨hne, _⟩
    · exact h1
    · exact absurd he hne

/-- C7 witness: a buy dated 3 after a lot dated 5 fails with the
    out-of-order error, leaving the queue as it was. -/
theorem Buy_validates_witness :
    (0:ℚ) < 2 ∧ (0:ℚ) < 2 ∧ [Lot.mk 5 1 1].getLast? = some (Lot.mk 5 1 1) ∧ (3:ℕ) < 5 ∧
    (⟨"BTC", [Lot.mk 5 1 1]⟩ : LotHistory).Buy (Lot.mk 3 2 2) =
      (⟨"BTC", [Lot.mk 5 1 1]⟩, some AccErr.outOfOrder) :=
  ⟨by norm_num, by norm_num, rfl, by norm_num,
    (Buy_validates ⟨"BTC", [Lot.mk 5 1 1]⟩ (Lot.mk 3 2 2)).2.2.1 (by norm_num) (by norm_num)
      (Lot.mk 5 1 1) rfl (by norm_num)⟩

/-- Buy preserves well-formedness of the queue. -/
theorem WF_Buy (h : LotHistory) (l : Lot) (hw : WF h) : WF ((h.Buy l).1) := by
  unfold LotHistory.Buy
  split
  · exact hw
  · rename_i hq
    split
    · exact hw
    · split
      · rename_i t ht
        split
        · exact hw
        · rename_i hlt
          refine ⟨?_, ?_⟩
          · intro x hx
            rcases List.mem_append.mp hx with hx | hx
            · exact hw.1 x hx
            · rw [List.mem_singleton] at hx
              subst hx
              exact not_le.mp hq
          · refine List.chain'_append.mpr ⟨hw.2, List.chain'_singleton l, ?_⟩
            intro x hx y hy
            rw [ht, Option.mem_some_iff] at hx
            rw [List.head?_cons, Option.mem_some_iff] at hy
            subst hx
            subst hy
            exact not_lt.mp hlt
      · rename_i ht
        rw [List.getLast?_eq_none_iff] at ht
        refine ⟨?_, ?_⟩
        · intro x hx
          rw [ht, List.nil_append, List.mem_singleton] at hx
          subst hx
          exact not_le.mp hq
        · rw [ht]
          exact List.chain'_singleton l

/-- The sell loop preserves positivity of the lot quantities and the
    non-decreasing ordering of the purchase dates. -/
theorem WF_sellLoop (a : String) (q s : ℚ) (d : ℕ) :
    ∀ (lots : List Lot) (remaining : ℚ),
      (∀ l ∈ lots, 0 < l.quantity) →
      List.Chain' (fun x y => x.purchaseDate ≤ y.purchaseDate) lots →
      (∀ l ∈ (sellLoop a q s d lots remaining).2.1, 0 < l.quantity) ∧
      List.Chain' (fun x y => x.purchaseDate ≤ y.purchaseDate)
        (sellLoop a q s d lots remaining).2.1 := by
  intro lots
  induction lots with
  | nil =>
    intro remaining _ _
    simp [sellLoop]
  | cons lot rest ih =>
    intro remaining hpos hchain
    simp only [sellLoop]
    split
    · rename_i hlt
      refine ⟨?_, ?_⟩
      · intro x hx
        rcases List.mem_cons.mp hx with hx | hx
        · subst hx
          exact sub_pos.mpr hlt
        · exact hpos x (List.mem_cons_of_mem _ hx)
      · have h2 := List.chain'_cons'.mp hchain
        exact List.chain'_cons'.mpr ⟨h2.1, h2.2⟩
    · split
      · exact ih (remaining - lot.TotalCost)
          (fun x hx => hpos x (List.mem_cons_of_mem _ hx)) hchain.tail
      · exact ⟨fun x hx => hpos x (List.mem_cons_of_mem _ hx), hchain.tail⟩

/-- Sell preserves well-formedness of the queue. -/
theorem WF_Sell (h : LotHistory) (q s : ℚ) (d : ℕ) (hw : WF h) :
    WF ((h.Sell q s d).2.1) := by
  unfold LotHistory.Sell
  split
  · exact hw
  · split
    · exact hw
    · exact WF_sellLoop h.asset q s d h.lots q hw.1 hw.2

/-- C9: every history reachable from the empty queue by any sequence of
    Buy and Sell operations is well-formed: each held lot has strictly
    positive quantity and the purchase dates are non-decreasing along the
    queue. -/
theorem replay_WF (asset : String) (ops : List Op) : WF (replay asset ops) := by
  have aux : ∀ (ops : List Op) (h : LotHistory), WF h → WF (ops.foldl applyOp h) := by
    intro ops
    induction ops with
    | nil =>
      intro h hw
      exact hw
    | cons op rest ih =>
      intro h hw
      cases op with
      | buy l => exact ih _ (WF_Buy h l hw)
      | sell q s d => exact ih _ (WF_Sell h q s d hw)
  exact aux ops ⟨asset, []⟩ ⟨by simp, List.chain'_nil⟩

/-- When the loop returns the insufficient-lots error, the lot list is
    left empty and exactly one Sale stands per consumed lot, carrying that
    lot total cost as its fifo cost. -/
theorem sellLoop_insufficient (a : String) (q s : ℚ) (d : ℕ) (r : ℚ) :
    ∀ (lots : List Lot) (remaining : ℚ),
      (sellLoop a q s d lots remaining).2.2 = some (AccErr.insufficientLots r) →
      (sellLoop a q s d lots remaining).2.1 = [] ∧
      (sellLoop a q s d lots remaining).1.map Sale.fifoCost = lots.map Lot.TotalCost := by
  intro lots
  induction lots with
  | nil =>
    intro remaining _
    simp [sellLoop]
  | cons lot rest ih =>
    intro remaining herr
    by_cases h1 : remaining < lot.quantity
    · simp [sellLoop, h1] at herr
    · by_cases h2 : 0 < remaining - lot.TotalCost
      · have hrec := ih (remaining - lot.TotalCost) (by simpa [sellLoop, h1, h2] using herr)
        simp only [sellLoop, h1, if_false, h2, if_true]
        simp [hrec.1, hrec.2]
      · simp [sellLoop, h1, h2] at herr

/-- C10: when Sell fails with the insufficient-lots error the call is not
    atomic: the queue is left empty (the consumed lots stay removed) and
    the Sales already emitted stand, one per consumed lot, carrying that
    lot total cost as fifo cost. -/
theorem Sell_insufficient_not_atomic (h : LotHistory) (q s : ℚ) (d : ℕ) (r : ℚ)
    (herr : (h.Sell q s d).2.2 = some (AccErr.insufficientLots r)) :
    (h.Sell q s d).2.1.lots = [] ∧
    (h.Sell q s d).1.map Sale.fifoCost = h.lots.map Lot.TotalCost := by
  by_cases h1 : q ≤ 0
  · simp [LotHistory.Sell, h1] at herr
  · by_cases h2 : s ≤ 0
    · simp [LotHistory.Sell, h1, h2] at herr
    · have hrec := sellLoop_insufficient h.asset q s d r h.lots q
        (by simpa [LotHistory.Sell, h1, h2] using herr)
      simp only [LotHistory.Sell, h1, if_false, h2]
      simp [hrec.1, hrec.2]

/-- C10 witness: selling 20 against a single lot of 10 units at 1 dollar
    fails with the insufficient-lots error reporting 10, leaves the queue
    empty, and the one emitted Sale stands. -/
theorem Sell_insufficient_not_atomic_witness :
    ((⟨"BTC", [Lot.mk 0 10 1]⟩ : LotHistory).Sell 20 1 5).2.2 =
        some (AccErr.insufficientLots 10) ∧
    (((⟨"BTC", [Lot.mk 0 10 1]⟩ : LotHistory).Sell 20 1 5).2.1.lots = [] ∧
      ((⟨"BTC", [Lot.mk 0 10 1]⟩ : LotHistory).Sell 20 1 5).1.map Sale.fifoCost =
        [Lot.mk 0 10 1].map Lot.TotalCost) :=
  ⟨by norm_num [LotHistory.Sell, sellLoop, LotHistory.AvgCost, Lot.TotalCost],
    Sell_insufficient_not_atomic ⟨"BTC", [Lot.mk 0 10 1]⟩ 20 1 5 10
      (by norm_num [LotHistory.Sell, sellLoop, LotHistory.AvgCost, Lot.TotalCost])⟩

end CryptoTaxes
